import Mathlib

/-!
# Verification of the `zod-to-mongo-schema` sanitizer

A shallow embedding of the schema-sanitizing core of the repository
(`src/index.ts`): the JSON value model, the numeric type resolver
`_typeForNumber` (and its legacy predecessor `_typeForInteger`), the
properties-map classifier `_isPropertiesMap`, and the recursive tree
sanitizer `_sanitizeSchema`.

Modelling conventions:
* JavaScript objects are association lists `List (String × Value)` in
  insertion order.  Property assignment overwrites an existing key in
  place and appends a fresh key at the end; `delete` removes the key.
  Objects produced by JavaScript never repeat a key, so removing every
  occurrence coincides with removing the single one.
* JavaScript numbers are modelled as rationals; the IEEE-754 boundary
  constants are taken at the decimal value written in the source.  The
  resolver only compares numbers for equality and order, so this is
  faithful on every comparison the code performs.
* `BigInt(x)` throws on a non-integral number; the model renders the
  64-bit range test as false there (the original code crashes on such
  inputs, which no claim exercises).
* Relational comparisons (`>=`, `<=`) are modelled on numeric values
  only; JavaScript's implicit coercion of non-numbers is out of scope.
-/

/-- A JSON-ish value: the data `_sanitizeSchema` operates on. -/
inductive Value where
  | vnull : Value
  | vbool : Bool → Value
  | vnum : ℚ → Value
  | vstr : String → Value
  | varr : List Value → Value
  | vobj : List (String × Value) → Value

open Value

mutual

/-- Structural equality test on `Value` (decidable equality is derived
from it below; the automatic derivation does not handle the nested
induction). -/
def beqV : Value → Value → Bool
  | vnull, vnull => true
  | vbool a, vbool b => a == b
  | vnum a, vnum b => a == b
  | vstr a, vstr b => a == b
  | varr as, varr bs => beqL as bs
  | vobj fs, vobj gs => beqF fs gs
  | _, _ => false

def beqL : List Value → List Value → Bool
  | [], [] => true
  | a :: as, b :: bs => beqV a b && beqL as bs
  | _, _ => false

def beqF : List (String × Value) → List (String × Value) → Bool
  | [], [] => true
  | (k, v) :: fs, (k2, v2) :: gs => k == k2 && beqV v v2 && beqF fs gs
  | _, _ => false

end

theorem beq_iff_all :
    (∀ a b : Value, beqV a b = true ↔ a = b) ∧
    (∀ fs gs : List (String × Value), beqF fs gs = true ↔ fs = gs) ∧
    (∀ as bs : List Value, beqL as bs = true ↔ as = bs) := by
  refine beqV.mutual_induct
    (fun a b => beqV a b = true ↔ a = b)
    (fun fs gs => beqF fs gs = true ↔ fs = gs)
    (fun as bs => beqL as bs = true ↔ as = bs)
    ?_ ?_ ?_ ?_ ?_ ?_ ?_ ?_ ?_ ?_ ?_ ?_ ?_
  · simp [beqV]
  · intro a b; simp [beqV]
  · intro a b; simp [beqV]
  · intro a b; simp [beqV]
  · intro as bs ih; simpa [beqV] using ih
  · intro fs gs ih; simpa [beqV] using ih
  · intro t x h1 h2 h3 h4 h5 h6
    cases t <;> cases x <;>
      first
        | exact (h1 rfl rfl).elim
        | exact (h2 _ _ rfl rfl).elim
        | exact (h3 _ _ rfl rfl).elim
        | exact (h4 _ _ rfl rfl).elim
        | exact (h5 _ _ rfl rfl).elim
        | exact (h6 _ _ rfl rfl).elim
        | simp [beqV]
  · simp [beqL]
  · intro a as b bs ih1 ih2; simp [beqL, ih1, ih2]
  · intro t x h1 h2
    cases t <;> cases x <;>
      first
        | exact (h1 rfl rfl).elim
        | exact (h2 _ _ _ _ rfl rfl).elim
        | simp [beqL]
  · simp [beqF]
  · intro k v fs k2 v2 gs ih1 ih2
    simp [beqF, ih1, ih2, and_assoc]
  · intro t x h1 h2
    cases t <;> cases x <;>
      first
        | exact (h1 rfl rfl).elim
        | exact (h2 _ _ _ _ _ _ rfl rfl).elim
        | simp [beqF]

instance : DecidableEq Value :=
  fun a b => decidable_of_iff (beqV a b = true) (beq_iff_all.1 a b)

/-- `json.key`: the first binding of `key` (JavaScript objects have unique keys). -/
def getField : List (String × Value) → String → Option Value
  | [], _ => none
  | (k, v) :: rest, key => if k = key then some v else getField rest key

/-- `delete json.key`. -/
def eraseField (l : List (String × Value)) (key : String) : List (String × Value) :=
  l.filter (fun p => p.1 ≠ key)

/-- `json.key = v`: overwrite in place, or append a new key at the end. -/
def setField : List (String × Value) → String → Value → List (String × Value)
  | [], key, v => [(key, v)]
  | (k, w) :: rest, key, v =>
    if k = key then (key, v) :: rest else (k, w) :: setField rest key v

/-- `x ?? undefined`: collapse a JavaScript `null` field to an absent one. -/
def nullToNone : Option Value → Option Value
  | some vnull => none
  | o => o

/-- `a ?? b` on possibly-missing field values. -/
def jsCoalesce : Option Value → Option Value → Option Value
  | none, b => b
  | some vnull, b => b
  | some v, _ => some v

/-- `c <= v` for a numeric value (false on non-numbers, see header). -/
def numGE (v : Value) (c : ℚ) : Bool :=
  match v with
  | vnum m => decide (c ≤ m)
  | _ => false

/-- `v <= c` for a numeric value (false on non-numbers, see header). -/
def numLE (v : Value) (c : ℚ) : Bool :=
  match v with
  | vnum m => decide (m ≤ c)
  | _ => false

/-- Whether `BigInt(v)` succeeds, i.e. `v` is an integral number. -/
def isIntegral (v : Value) : Bool :=
  match v with
  | vnum m => m.den == 1
  | _ => false

/-- `UNSUPPORTED_KEYS` (src/index.ts, lines 139-146). -/
def UNSUPPORTED_KEYS : List String :=
  ["$ref", "$schema", "default", "definitions", "format", "id"]

def INT32_MIN : ℚ := -2147483648
def INT32_MAX : ℚ := 2147483647
def INT53_MIN : ℚ := -9007199254740991
def INT53_MAX : ℚ := 9007199254740991
/-- `INT64_MIN = -9_223_372_036_854_775_808n`, i.e. `-(2^63)`. -/
def INT64_MIN : ℚ := -9223372036854775808
/-- `INT64_MAX = 9_223_372_036_854_775_808n`: the source stores `2^63`
even though its inline comment reads `2^63 - 1`. -/
def INT64_MAX : ℚ := 9223372036854775808
/-- `-3.402_823_466_385_288_6e38`, written out as an integer literal. -/
def FLOAT32_MIN : ℚ := -340282346638528860000000000000000000000
/-- `3.402_823_466_385_288_6e38`, written out as an integer literal. -/
def FLOAT32_MAX : ℚ := 340282346638528860000000000000000000000
/-- `-1.797_693_134_862_315_7e308`, written out as an integer literal. -/
def FLOAT64_MIN : ℚ := -179769313486231570000000000000000000000000000000000000000000000000000000000000000000000000000000000000000000000000000000000000000000000000000000000000000000000000000000000000000000000000000000000000000000000000000000000000000000000000000000000000000000000000000000000000000000000000000000000000000000000000000
/-- `1.797_693_134_862_315_7e308`, written out as an integer literal. -/
def FLOAT64_MAX : ℚ := 179769313486231570000000000000000000000000000000000000000000000000000000000000000000000000000000000000000000000000000000000000000000000000000000000000000000000000000000000000000000000000000000000000000000000000000000000000000000000000000000000000000000000000000000000000000000000000000000000000000000000000000

/-- `json.type ?? json.bsonType`, the local `type` of `_typeForNumber`. -/
def tfnType (json : List (String × Value)) : Option Value :=
  jsCoalesce (getField json "type") (getField json "bsonType")

/-- `_typeForNumber` (src/index.ts, lines 149-249).  Returns the resolved
designator together with the field list after the in-place bound
deletions the JavaScript function performs on `json`. -/
def typeForNumber (json : List (String × Value)) :
    Option Value × List (String × Value) :=
  let type := tfnType json
  if type ≠ some (vstr "integer") ∧ type ≠ some (vstr "number") then
    (type, json)
  else
    let min := nullToNone (getField json "minimum")
    let max := nullToNone (getField json "maximum")
    if type = some (vstr "integer") then
      if min = some (vnum INT32_MIN) ∧ max = some (vnum INT32_MAX) then
        (some (vstr "int"), eraseField (eraseField json "minimum") "maximum")
      else if min = some (vnum INT53_MIN) ∧ max = some (vnum INT53_MAX) then
        (some (vstr "long"), eraseField (eraseField json "minimum") "maximum")
      else
        match min, max with
        | some mn, some mx =>
          if numGE mn INT32_MIN && numLE mx INT32_MAX then
            let j1 := if mn = vnum INT32_MIN then eraseField json "minimum" else json
            let j2 := if mx = vnum INT32_MAX then eraseField j1 "maximum" else j1
            (some (vstr "int"), j2)
          else if isIntegral mn && isIntegral mx && numGE mn INT64_MIN && numLE mx INT64_MAX then
            let j1 := if mn = vnum INT53_MIN then eraseField json "minimum" else json
            let j2 := if mx = vnum INT53_MAX then eraseField j1 "maximum" else j1
            (some (vstr "long"), j2)
          else
            (some (vstr "number"), json)
        | _, _ => (some (vstr "number"), json)
    else
      if min = some (vnum FLOAT32_MIN) ∧ max = some (vnum FLOAT32_MAX) then
        (some (vstr "double"), json)
      else if min = some (vnum FLOAT64_MIN) ∧ max = some (vnum FLOAT64_MAX) then
        (some (vstr "double"), eraseField (eraseField json "minimum") "maximum")
      else
        (some (vstr "number"), json)

/-- Legacy `_typeForInteger` (first revision of src/index.ts, also
src/unnamed/part_000, lines 18-57).  `json.minimum ?? INT53_MIN`
default-fills absent bounds; the no-bound test `json.minimum ===
undefined` uses the raw field, so a `null` bound does not count as
absent there. -/
def typeForInteger (json : List (String × Value)) :
    Option Value × List (String × Value) :=
  if getField json "type" ≠ some (vstr "integer") ∧
      getField json "bsonType" ≠ some (vstr "integer") then
    (getField json "bsonType", json)
  else
    let min := (nullToNone (getField json "minimum")).getD (vnum INT53_MIN)
    let max := (nullToNone (getField json "maximum")).getD (vnum INT53_MAX)
    if (min = vnum INT32_MIN ∧ max = vnum INT32_MAX) ∨
        (min = vnum INT53_MIN ∧ max = vnum INT53_MAX) ∨
        (getField json "minimum" = none ∧ getField json "maximum" = none) then
      (some (if !numGE min INT32_MIN || !numLE max INT32_MAX then vstr "long" else vstr "int"),
        eraseField (eraseField json "minimum") "maximum")
    else if numGE min INT32_MIN && numLE max INT32_MAX then
      (some (vstr "int"), json)
    else if isIntegral min && isIntegral max && numGE min INT64_MIN && numLE max INT64_MAX then
      (some (vstr "long"), json)
    else
      (some (vstr "number"), json)

/-- Whether `v` is an object carrying a kind marker: `v && typeof v ===
"object" && ("type" in v || "bsonType" in v)`.  An array has neither
property, so only objects qualify; a key that is present with value
`null` still counts as present. -/
def hasTypeMarker (v : Value) : Bool :=
  match v with
  | vobj fields => (getField fields "type").isSome || (getField fields "bsonType").isSome
  | _ => false

/-- `_isPropertiesMap` (src/index.ts, lines 252-260).  `Object.values`
of an array is its element list, so arrays are classified as well. -/
def isPropertiesMap (object : Value) : Bool :=
  match object with
  | vobj fields => fields.all (fun p => hasTypeMarker p.2)
  | varr elems => elems.all hasTypeMarker
  | _ => false

/-- The recursion flag `_sanitizeSchema` passes to the children of field
`key`: `key === "properties" && _isPropertiesMap(value)` (src/index.ts,
line 276). -/
def childFlag (key : String) (value : Value) : Bool :=
  key == "properties" && isPropertiesMap value

/-- The numeric post-processing of `_sanitizeSchema` (src/index.ts,
lines 284-297): resolve integer/number designators through
`_typeForNumber`, then represent a generic `number` uniformly under the
`type` keyword. -/
def postProcess (sanitized : List (String × Value)) : List (String × Value) :=
  let s1 :=
    if getField sanitized "type" = some (vstr "integer") ∨
        getField sanitized "type" = some (vstr "number") ∨
        getField sanitized "bsonType" = some (vstr "integer") ∨
        getField sanitized "bsonType" = some (vstr "number") then
      let r := typeForNumber sanitized
      eraseField (setField r.2 "bsonType" (r.1.getD vnull)) "type"
    else sanitized
  if getField s1 "type" = some (vstr "number") ∨
      getField s1 "bsonType" = some (vstr "number") then
    eraseField (setField s1 "type" (vstr "number")) "bsonType"
  else s1

mutual

/-- `_sanitizeSchema` (src/index.ts, lines 263-300). -/
def sanitize : Value → Bool → Value
  | varr elems, inProperties => varr (sanitizeList elems inProperties)
  | vobj fields, inProperties => vobj (postProcess (buildFields fields inProperties))
  | vnull, _ => vnull
  | vbool b, _ => vbool b
  | vnum q, _ => vnum q
  | vstr s, _ => vstr s

/-- `schema.map((element) => _sanitizeSchema(element, inProperties))`. -/
def sanitizeList : List Value → Bool → List Value
  | [], _ => []
  | e :: rest, inProperties => sanitize e inProperties :: sanitizeList rest inProperties

/-- The `for (const [key, value] of Object.entries(schema))` loop of
`_sanitizeSchema`: drop unsupported keywords unless inside a properties
map, and recurse with the per-key child flag. -/
def buildFields : List (String × Value) → Bool → List (String × Value)
  | [], _ => []
  | (key, value) :: rest, inProperties =>
    if !inProperties && UNSUPPORTED_KEYS.contains key then
      buildFields rest inProperties
    else
      (key, sanitize value (childFlag key value)) :: buildFields rest inProperties

end

/-- `zodToMongoSchema`'s sanitizing stage on a raw JSON-schema tree:
`_sanitizeSchema(rawJsonSchema)` with the flag defaulted to false. -/
def sanitizeSchema (raw : Value) : Value :=
  sanitize raw false

/-- Field lookup on an object value (`none` on any other value). -/
def objGet (v : Value) (k : String) : Option Value :=
  match v with
  | vobj fields => getField fields k
  | _ => none

/-- An integer-kind node whose bounds are exactly a canonical float
pair: the one shape on which a second sanitization pass changes the
result (see `C9_counterexample`). -/
def intClash (fields : List (String × Value)) : Bool :=
  decide (tfnType fields = some (vstr "integer")) &&
    ((decide (nullToNone (getField fields "minimum") = some (vnum FLOAT32_MIN)) &&
        decide (nullToNone (getField fields "maximum") = some (vnum FLOAT32_MAX))) ||
      (decide (nullToNone (getField fields "minimum") = some (vnum FLOAT64_MIN)) &&
        decide (nullToNone (getField fields "maximum") = some (vnum FLOAT64_MAX))))

mutual

/-- No node of the tree is an integer-kind node carrying a canonical
float pair as bounds (`intClash`). -/
def Safe : Value → Bool
  | vobj fields => !intClash fields && SafeF fields
  | varr elems => SafeL elems
  | _ => true

def SafeL : List Value → Bool
  | [] => true
  | e :: rest => Safe e && SafeL rest

def SafeF : List (String × Value) → Bool
  | [] => true
  | p :: rest => Safe p.2 && SafeF rest

end

mutual

/-- No top-level key of an object is an unsupported keyword, recursively
through arrays (the sanitizer pushes its flag through array elements, so
the flag only matters at object tops reachable without passing an
object boundary). -/
def cleanTop : Value → Bool
  | vobj fields => fields.all (fun p => !UNSUPPORTED_KEYS.contains p.1)
  | varr elems => cleanTopL elems
  | _ => true

def cleanTopL : List Value → Bool
  | [] => true
  | e :: rest => cleanTop e && cleanTopL rest

end

/-- Modelled from the spec: one schema node as seen by the
construction-time validation hook that the upstream serializer invokes
once per node before sanitization.  The hook itself is not part of the
sources under src/ (the checked-in `zodToMongoSchema` calls
`z4.toJSONSchema` without an override; only the tests in
src/unnamed/part_002 exercise the two errors), so it is modelled from
spec §7: `generic` records whether the node's declared kind is the
fully-generic/untyped kind (`z.unknown()`), and `fields` is the node's
raw JSON-schema representation after the user metadata merge. -/
structure HookNode where
  generic : Bool
  fields : List (String × Value)

/-- Modelled from the spec: the two fatal checks of the construction
hook (spec §7).  Subtype-designator misuse: the subtype-override keyword
is present on a node whose declared kind is not fully generic.  Dual
designation: both the declared-kind field and the subtype-override field
are present after the metadata merge.  (The source error messages wrap
the identifiers in backticks.) -/
def checkNode (n : HookNode) : Except String Unit :=
  if (getField n.fields "bsonType").isSome && !n.generic then
    Except.error "bsonType can only be used with z.unknown()."
  else if (getField n.fields "type").isSome && (getField n.fields "bsonType").isSome then
    Except.error "Cannot specify both type and bsonType simultaneously."
  else
    Except.ok ()

/-- Run the construction hook over every node the serializer visits,
aborting at the first error. -/
def checkAllNodes : List HookNode → Except String Unit
  | [] => Except.ok ()
  | n :: rest =>
    match checkNode n with
    | Except.error e => Except.error e
    | Except.ok _ => checkAllNodes rest

/-- Modelled from the spec: the conversion pipeline of
`zodToMongoSchema` (spec §2, §7).  The serializer walks the schema,
invoking the hook once per node before sanitization; if any hook
invocation throws, the whole conversion aborts with that error and no
tree is produced, otherwise the raw tree is sanitized. -/
def zodToMongoSchemaModel (nodes : List HookNode) (rawTree : Value) :
    Except String Value :=
  match checkAllNodes nodes with
  | Except.error e => Except.error e
  | Except.ok _ => Except.ok (sanitize rawTree false)

/-- A hook-visible node violating one of the two fatal conditions of
spec §7. -/
def violates (n : HookNode) : Prop :=
  ((getField n.fields "bsonType").isSome ∧ n.generic = false) ∨
    ((getField n.fields "type").isSome ∧ (getField n.fields "bsonType").isSome)

instance (n : HookNode) : Decidable (violates n) := by
  unfold violates; infer_instance

/-! ## Basic lemmas about the field operations -/

theorem sanitize_vobj (l : List (String × Value)) (b : Bool) :
    sanitize (vobj l) b = vobj (postProcess (buildFields l b)) := rfl

theorem sanitize_varr (l : List Value) (b : Bool) :
    sanitize (varr l) b = varr (sanitizeList l b) := rfl

theorem sanitizeList_eq_map (l : List Value) (b : Bool) :
    sanitizeList l b = l.map (fun e => sanitize e b) := by
  induction l with
  | nil => rfl
  | cons e rest ih => simp [sanitizeList, ih]

theorem buildFields_cons (key : String) (value : Value)
    (rest : List (String × Value)) (b : Bool) :
    buildFields ((key, value) :: rest) b =
      if !b && UNSUPPORTED_KEYS.contains key then buildFields rest b
      else (key, sanitize value (childFlag key value)) :: buildFields rest b := rfl

theorem getField_eraseField (l : List (String × Value)) (k k2 : String) :
    getField (eraseField l k) k2 = if k2 = k then none else getField l k2 := by
  induction l with
  | nil => simp [eraseField, getField]
  | cons p rest ih =>
    obtain ⟨k1, v1⟩ := p
    by_cases h1 : k1 = k <;> by_cases h2 : k1 = k2 <;>
      simp_all [eraseField, getField]

theorem getField_setField (l : List (String × Value)) (k : String) (v : Value) (k2 : String) :
    getField (setField l k v) k2 = if k2 = k then some v else getField l k2 := by
  induction l with
  | nil => by_cases h : k2 = k <;> simp_all [setField, getField, eq_comm]
  | cons p rest ih =>
    obtain ⟨k1, v1⟩ := p
    by_cases h1 : k1 = k <;> by_cases h2 : k1 = k2 <;>
      simp_all [setField, getField, eq_comm]

theorem getField_mem {l : List (String × Value)} {k : String} {v : Value}
    (h : getField l k = some v) : (k, v) ∈ l := by
  induction l with
  | nil => simp [getField] at h
  | cons p rest ih =>
    obtain ⟨k1, v1⟩ := p
    by_cases h1 : k1 = k <;> simp_all [getField]

theorem getField_eq_none_iff {l : List (String × Value)} {k : String} :
    getField l k = none ↔ ∀ p ∈ l, p.1 ≠ k := by
  induction l with
  | nil => simp [getField]
  | cons p rest ih =>
    obtain ⟨k1, v1⟩ := p
    by_cases h1 : k1 = k <;> simp_all [getField]

theorem eraseField_of_getField_none {l : List (String × Value)} {k : String}
    (h : getField l k = none) : eraseField l k = l := by
  rw [getField_eq_none_iff] at h
  simp only [eraseField]
  exact List.filter_eq_self.2 (fun p hp => by simpa using h p hp)

theorem setField_of_getField_none {l : List (String × Value)} {k : String}
    (h : getField l k = none) (v : Value) : setField l k v = l ++ [(k, v)] := by
  induction l with
  | nil => simp [setField]
  | cons p rest ih =>
    obtain ⟨k1, v1⟩ := p
    by_cases h1 : k1 = k <;> simp_all [setField, getField]

theorem eraseField_append (a b : List (String × Value)) (k : String) :
    eraseField (a ++ b) k = eraseField a k ++ eraseField b k := by
  simp [eraseField]

theorem mem_eraseField {p : String × Value} {l : List (String × Value)} {k : String}
    (h : p ∈ eraseField l k) : p ∈ l := by
  simp only [eraseField, List.mem_filter] at h
  exact h.1

theorem mem_setField {p : String × Value} {l : List (String × Value)} {k : String} {v : Value}
    (h : p ∈ setField l k v) : p ∈ l ∨ p = (k, v) := by
  induction l with
  | nil => simp_all [setField]
  | cons q rest ih =>
    obtain ⟨k1, v1⟩ := q
    by_cases h1 : k1 = k <;> simp_all [setField] <;> tauto

/-! ## Scalar values pass through the sanitizer unchanged -/

theorem sanitize_eq_vstr_iff (v : Value) (b : Bool) (s : String) :
    sanitize v b = vstr s ↔ v = vstr s := by
  cases v <;> simp [sanitize]

theorem sanitize_eq_vnum_iff (v : Value) (b : Bool) (q : ℚ) :
    sanitize v b = vnum q ↔ v = vnum q := by
  cases v <;> simp [sanitize]

theorem sanitize_eq_vnull_iff (v : Value) (b : Bool) :
    sanitize v b = vnull ↔ v = vnull := by
  cases v <;> simp [sanitize]

/-! ## Claim theorems: the simple evaluations -/

/-- C1: the claim posits allow-list containment (every output field name
among the 28 supported keywords outside field-name maps, so an unknown
name like `whatever` never survives).  The code instead drops only the
six `UNSUPPORTED_KEYS`: at the failing input `{type: "string", whatever:
"trash"}` the unknown keyword survives sanitization verbatim, contrary
to the claim and to the repository's own test "removes
unknown/unsupported JSON Schema keys". -/
theorem C1_unknown_keyword_kept :
    sanitize (vobj [("type", vstr "string"), ("whatever", vstr "trash")]) false
      = vobj [("type", vstr "string"), ("whatever", vstr "trash")] := by decide

/-- C3: the claim says an integer-kind node with no declared bounds
resolves to an integer subtype, never generic `number`.  In
`_typeForNumber` the bound-less integer node `{type: "integer"}` skips
both exact-pair checks and the both-bounds-present branch and falls
through to the `number` fallback (whose comment reserves it for
beyond-64-bit integers); the legacy `_typeForInteger` default-filled the
bounds and returned `long` as the claim describes. -/
theorem C3_boundless_integer_eval :
    typeForNumber [("type", vstr "integer")]
        = (some (vstr "number"), [("type", vstr "integer")]) ∧
    sanitize (vobj [("type", vstr "integer")]) false = vobj [("type", vstr "number")] ∧
    typeForInteger [("type", vstr "integer")]
        = (some (vstr "long"), [("type", vstr "integer")]) := by decide

/-- C7: the claim requires generic `number` once a bound leaves the
64-bit canonical range, whose maximum is `2^63 - 1`.  The code's
`INT64_MAX` constant is `2^63` (its inline comment still says
`2^63 - 1`), so the node with maximum exactly `2^63` — one past the
64-bit signed maximum — still resolves to `long` with both bounds kept. -/
theorem C7_int64_boundary_eval :
    typeForNumber [("type", vstr "integer"), ("minimum", vnum 0),
        ("maximum", vnum 9223372036854775808)]
      = (some (vstr "long"),
          [("type", vstr "integer"), ("minimum", vnum 0),
            ("maximum", vnum 9223372036854775808)]) ∧
    (9223372036854775808 : ℚ) = 2 ^ 63 := by
  constructor
  · decide
  · norm_num

/-- C4 counterexample: the claim says the recursive context flag is true
for a `patternProperties` field whose value matches the field-name-map
criterion, which would preserve a keyword-colliding entry name inside it
just as inside `properties`.  The code computes the flag as
`key === "properties" && _isPropertiesMap(value)`, so the entry named
`id` inside `patternProperties` is dropped while the same entry inside
`properties` is kept. -/
theorem C4_counterexample :
    sanitize (vobj [("patternProperties",
        vobj [("id", vobj [("type", vstr "string")])])]) false
      = vobj [("patternProperties", vobj [])] ∧
    sanitize (vobj [("properties",
        vobj [("id", vobj [("type", vstr "string")])])]) false
      = vobj [("properties", vobj [("id", vobj [("type", vstr "string")])])] := by decide

/-- C5 counterexample: the claim says a boolean-kind node is remapped to
`bsonType: "bool"` unconditionally; the current `_sanitizeSchema` has no
boolean post-processing step, so `{type: "boolean"}` passes through
unchanged and no `bool` designator ever appears. -/
theorem C5_counterexample :
    sanitize (vobj [("type", vstr "boolean")]) false = vobj [("type", vstr "boolean")] ∧
    vobj [("type", vstr "boolean")] ≠ vobj [("bsonType", vstr "bool")] := by decide

/-- C9 counterexample: sanitization is not idempotent.  The integer-kind
node whose bounds are exactly the float32 canonical pair falls through
the integer ranges to generic `number` with its bounds preserved; a
second pass then sees a number-kind node with the exact float32 pair and
re-resolves it to `double`. -/
theorem C9_counterexample :
    sanitize (sanitize (vobj [("type", vstr "integer"), ("minimum", vnum FLOAT32_MIN),
        ("maximum", vnum FLOAT32_MAX)]) false) false
      ≠ sanitize (vobj [("type", vstr "integer"), ("minimum", vnum FLOAT32_MIN),
          ("maximum", vnum FLOAT32_MAX)]) false := by decide

/-! ## Lemmas about the field-building loop -/

theorem buildDrop_iff (b : Bool) (k : String) :
    (!b && UNSUPPORTED_KEYS.contains k) = true ↔ b = false ∧ k ∈ UNSUPPORTED_KEYS := by
  simp [List.elem_iff]

theorem getField_buildFields (l : List (String × Value)) (b : Bool) (k : String)
    (h : k ∉ UNSUPPORTED_KEYS ∨ b = true) :
    getField (buildFields l b) k
      = (getField l k).map (fun v => sanitize v (childFlag k v)) := by
  induction l with
  | nil => simp [buildFields, getField]
  | cons p rest ih =>
    obtain ⟨k1, v1⟩ := p
    by_cases hd : b = false ∧ k1 ∈ UNSUPPORTED_KEYS
    · have hk : k1 ≠ k := by
        rintro rfl
        rcases h with h | h
        · exact h hd.2
        · rw [h] at hd; simp at hd
      rw [buildFields_cons, if_pos ((buildDrop_iff b k1).2 hd), ih]
      simp [getField, hk]
    · rw [buildFields_cons, if_neg (fun hc => hd ((buildDrop_iff b k1).1 hc))]
      by_cases hk : k1 = k
      · subst hk; simp [getField]
      · simp [getField, hk, ih]

theorem getField_buildFields_unsup (l : List (String × Value)) (k : String)
    (h : k ∈ UNSUPPORTED_KEYS) :
    getField (buildFields l false) k = none := by
  induction l with
  | nil => simp [buildFields, getField]
  | cons p rest ih =>
    obtain ⟨k1, v1⟩ := p
    by_cases hd : k1 ∈ UNSUPPORTED_KEYS
    · rw [buildFields_cons, if_pos ((buildDrop_iff false k1).2 ⟨rfl, hd⟩)]
      exact ih
    · rw [buildFields_cons,
        if_neg (fun hc => hd ((buildDrop_iff false k1).1 hc).2)]
      have hk : k1 ≠ k := by rintro rfl; exact hd h
      simp [getField, hk, ih]

theorem mem_buildFields {p : String × Value} {l : List (String × Value)} {b : Bool}
    (h : p ∈ buildFields l b) :
    ∃ v0, (p.1, v0) ∈ l ∧ p.2 = sanitize v0 (childFlag p.1 v0) ∧
      (b = false → p.1 ∉ UNSUPPORTED_KEYS) := by
  induction l with
  | nil => simp [buildFields] at h
  | cons q rest ih =>
    obtain ⟨k1, v1⟩ := q
    by_cases hd : b = false ∧ k1 ∈ UNSUPPORTED_KEYS
    · rw [buildFields_cons, if_pos ((buildDrop_iff b k1).2 hd)] at h
      obtain ⟨v0, hv0, hs, hb⟩ := ih h
      exact ⟨v0, List.mem_cons_of_mem _ hv0, hs, hb⟩
    · rw [buildFields_cons, if_neg (fun hc => hd ((buildDrop_iff b k1).1 hc))] at h
      rcases List.mem_cons.1 h with rfl | hmem
      · exact ⟨v1, List.mem_cons_self _ _, rfl, fun hb hmem2 => hd ⟨hb, hmem2⟩⟩
      · obtain ⟨v0, hv0, hs, hb⟩ := ih hmem
        exact ⟨v0, List.mem_cons_of_mem _ hv0, hs, hb⟩

/-- If none of the four numeric keywords triggers, the post-processing
step is the identity. -/
theorem postProcess_no_numeric (s : List (String × Value))
    (h1 : getField s "type" ≠ some (vstr "integer"))
    (h2 : getField s "type" ≠ some (vstr "number"))
    (h3 : getField s "bsonType" ≠ some (vstr "integer"))
    (h4 : getField s "bsonType" ≠ some (vstr "number")) :
    postProcess s = s := by
  simp [postProcess, h1, h2, h3, h4]

/-! ## C2: the construction hook aborts the conversion -/

theorem checkNode_error_of_violates {n : HookNode} (hv : violates n) :
    ∃ e, checkNode n = Except.error e := by
  unfold checkNode
  split_ifs with hc1 hc2
  · exact ⟨_, rfl⟩
  · exact ⟨_, rfl⟩
  · exfalso
    rcases hv with ⟨hb, hg⟩ | ⟨ht, hb⟩
    · exact hc1 (by simp [hb, hg])
    · exact hc2 (by simp [ht, hb])

/-- C2: if the subtype-override keyword appears on a non-generic node,
or the declared-kind and subtype-override fields are both present after
the metadata merge, on any node the serializer visits, then the
conversion raises an error synchronously and produces no output tree
(the result is an `error`, never an `ok` tree, complete or truncated). -/
theorem C2_invalid_designator_aborts (nodes : List HookNode) (rawTree : Value)
    (h : ∃ n ∈ nodes, violates n) :
    ∃ msg, zodToMongoSchemaModel nodes rawTree = Except.error msg := by
  induction nodes with
  | nil =>
    obtain ⟨n, hn, _⟩ := h
    simp at hn
  | cons n0 rest ih =>
    obtain ⟨n, hn, hv⟩ := h
    rcases List.mem_cons.1 hn with rfl | hmem
    · obtain ⟨e, he⟩ := checkNode_error_of_violates hv
      exact ⟨e, by simp [zodToMongoSchemaModel, checkAllNodes, he]⟩
    · cases hc : checkNode n0 with
      | error e => exact ⟨e, by simp [zodToMongoSchemaModel, checkAllNodes, hc]⟩
      | ok u =>
        obtain ⟨msg, hmsg⟩ := ih ⟨n, hmem, hv⟩
        refine ⟨msg, ?_⟩
        simpa [zodToMongoSchemaModel, checkAllNodes, hc] using hmsg

theorem C2_witness :
    (∃ n ∈ [HookNode.mk false [("type", vstr "number"), ("bsonType", vstr "int")]],
        violates n) ∧
    ∃ msg, zodToMongoSchemaModel
        [HookNode.mk false [("type", vstr "number"), ("bsonType", vstr "int")]]
        (vobj []) = Except.error msg := by
  have hv : violates (HookNode.mk false [("type", vstr "number"), ("bsonType", vstr "int")]) :=
    Or.inl ⟨by simp [getField], rfl⟩
  exact ⟨⟨_, List.mem_cons_self _ _, hv⟩,
    C2_invalid_designator_aborts _ _ ⟨_, List.mem_cons_self _ _, hv⟩⟩

/-! ## C5 and C4: amended statements -/

/-- C5 (amended): the current `_sanitizeSchema` applies no boolean
remapping.  A node whose declared kind is boolean (and which carries no
subtype override) keeps `type: "boolean"` unchanged and gains no
`bsonType`; the remap to the target's `bool` designation existed only in
the legacy revision of the sanitizer. -/
theorem C5_boolean_unchanged (fields : List (String × Value))
    (htype : getField fields "type" = some (vstr "boolean"))
    (hbson : getField fields "bsonType" = none) :
    objGet (sanitize (vobj fields) false) "type" = some (vstr "boolean") ∧
    objGet (sanitize (vobj fields) false) "bsonType" = none := by
  have hT : getField (buildFields fields false) "type" = some (vstr "boolean") := by
    rw [getField_buildFields _ _ _ (Or.inl (by decide)), htype]
    rfl
  have hB : getField (buildFields fields false) "bsonType" = none := by
    rw [getField_buildFields _ _ _ (Or.inl (by decide)), hbson]
    rfl
  have hpp : postProcess (buildFields fields false) = buildFields fields false := by
    apply postProcess_no_numeric <;> simp [hT, hB]
  rw [sanitize_vobj, hpp]
  exact ⟨hT, hB⟩

theorem C5_witness :
    getField [("type", vstr "boolean")] "type" = some (vstr "boolean") ∧
    getField [("type", vstr "boolean")] "bsonType" = none ∧
    objGet (sanitize (vobj [("type", vstr "boolean")]) false) "type"
        = some (vstr "boolean") ∧
    objGet (sanitize (vobj [("type", vstr "boolean")]) false) "bsonType" = none := by
  refine ⟨by decide, by decide, ?_⟩
  exact C5_boolean_unchanged [("type", vstr "boolean")] (by decide) (by decide)

/-- C4 (amended): the recursive context flag is true exactly for the
field named `properties` whose value matches the field-name-map
criterion; `patternProperties` and `dependencies` always pass the flag
false to their children, so a keyword-colliding entry name (here `id`)
is preserved only inside a `properties` map and is dropped inside
`patternProperties` and `dependencies` maps. -/
theorem C4_flag_only_for_properties (sub : List (String × Value))
    (h : hasTypeMarker (vobj sub) = true) :
    sanitize (vobj [("properties", vobj [("id", vobj sub)])]) false
      = vobj [("properties", vobj [("id", sanitize (vobj sub) false)])] ∧
    sanitize (vobj [("patternProperties", vobj [("id", vobj sub)])]) false
      = vobj [("patternProperties", vobj [])] ∧
    sanitize (vobj [("dependencies", vobj [("id", vobj sub)])]) false
      = vobj [("dependencies", vobj [])] := by
  refine ⟨?_, ?_, ?_⟩ <;>
    simp [sanitize_vobj, buildFields_cons, buildFields, childFlag,
      isPropertiesMap, h, postProcess, getField, UNSUPPORTED_KEYS]

theorem C4_witness :
    sanitize (vobj [("properties", vobj [("id", vobj [("type", vstr "string")])])]) false
      = vobj [("properties",
          vobj [("id", sanitize (vobj [("type", vstr "string")]) false)])] ∧
    sanitize (vobj [("patternProperties",
        vobj [("id", vobj [("type", vstr "string")])])]) false
      = vobj [("patternProperties", vobj [])] :=
  ⟨(C4_flag_only_for_properties [("type", vstr "string")] (by decide)).1,
    (C4_flag_only_for_properties [("type", vstr "string")] (by decide)).2.1⟩

/-! ## C6: resolution of number-kind nodes -/

/-- C6: for a number-kind node, `_typeForNumber` returns `double` with
bounds preserved on the exact float32 canonical pair, `double` with both
bounds deleted on the exact float64 canonical pair, and in every other
case (including a single present bound) generic `number` with the fields
untouched — no bound deleted and none fabricated. -/
theorem C6_number_resolution (json : List (String × Value))
    (h : tfnType json = some (vstr "number")) :
    (nullToNone (getField json "minimum") = some (vnum FLOAT32_MIN) ∧
        nullToNone (getField json "maximum") = some (vnum FLOAT32_MAX) →
      typeForNumber json = (some (vstr "double"), json)) ∧
    (nullToNone (getField json "minimum") = some (vnum FLOAT64_MIN) ∧
        nullToNone (getField json "maximum") = some (vnum FLOAT64_MAX) →
      typeForNumber json = (some (vstr "double"),
          eraseField (eraseField json "minimum") "maximum")) ∧
    (¬(nullToNone (getField json "minimum") = some (vnum FLOAT32_MIN) ∧
        nullToNone (getField json "maximum") = some (vnum FLOAT32_MAX)) →
      ¬(nullToNone (getField json "minimum") = some (vnum FLOAT64_MIN) ∧
        nullToNone (getField json "maximum") = some (vnum FLOAT64_MAX)) →
      typeForNumber json = (some (vstr "number"), json)) := by
  have hne : (vstr "number" : Value) ≠ vstr "integer" := by decide
  refine ⟨fun h32 => ?_, fun h64 => ?_, fun h32 h64 => ?_⟩
  · simp [typeForNumber, h, hne, h32.1, h32.2]
  · have hd : FLOAT64_MIN ≠ FLOAT32_MIN := by decide
    simp [typeForNumber, h, hne, h64.1, h64.2, hd]
  · simp only [typeForNumber, h]
    rw [if_neg (by simp), if_neg (by simp)]
    rw [if_neg h32, if_neg h64]

theorem C6_witness :
    tfnType [("type", vstr "number"), ("minimum", vnum 0)] = some (vstr "number") ∧
    typeForNumber [("type", vstr "number"), ("minimum", vnum 0)]
      = (some (vstr "number"), [("type", vstr "number"), ("minimum", vnum 0)]) :=
  ⟨by decide, (C6_number_resolution _ (by decide)).2.2 (by decide) (by decide)⟩

/-! ## The second component of `_typeForNumber`: deletions only -/

theorem tfn_snd_cases (json : List (String × Value)) :
    (typeForNumber json).2 = json ∨
    (typeForNumber json).2 = eraseField json "minimum" ∨
    (typeForNumber json).2 = eraseField json "maximum" ∨
    (typeForNumber json).2 = eraseField (eraseField json "minimum") "maximum" := by
  unfold typeForNumber
  dsimp only
  split_ifs <;> try simp
  all_goals try (split <;> (try split_ifs) <;> simp)

theorem getField_tfn_snd (json : List (String × Value)) (u : String)
    (h3 : u ≠ "minimum") (h4 : u ≠ "maximum") :
    getField (typeForNumber json).2 u = getField json u := by
  rcases tfn_snd_cases json with h | h | h | h <;>
    simp [h, getField_eraseField, h3, h4]

theorem mem_tfn_snd {p : String × Value} {json : List (String × Value)}
    (h : p ∈ (typeForNumber json).2) : p ∈ json := by
  rcases tfn_snd_cases json with hc | hc | hc | hc <;> rw [hc] at h <;>
    first
      | exact h
      | exact mem_eraseField h
      | exact mem_eraseField (mem_eraseField h)

theorem getField_postProcess_other (s : List (String × Value)) (u : String)
    (h1 : u ≠ "type") (h2 : u ≠ "bsonType")
    (h3 : u ≠ "minimum") (h4 : u ≠ "maximum") :
    getField (postProcess s) u = getField s u := by
  unfold postProcess
  dsimp only
  split_ifs <;>
    simp [getField_eraseField, getField_setField, getField_tfn_snd, h1, h2, h3, h4]

/-! ## C8: keyword-named entries of a properties map survive, sanitized -/

theorem hasTypeMarker_vobj {v : Value} (h : hasTypeMarker v = true) :
    ∃ fl, v = vobj fl := by
  cases v <;> simp [hasTypeMarker] at h ⊢

theorem isPropMap_entries {m : List (String × Value)}
    (h : isPropertiesMap (vobj m) = true) {k : String} {v : Value}
    (hm : (k, v) ∈ m) : hasTypeMarker v = true := by
  simp only [isPropertiesMap, List.all_eq_true] at h
  exact h (k, v) hm

theorem propsMap_build_not_vstr (m : List (String × Value))
    (hmap : isPropertiesMap (vobj m) = true) (key : String) (x : String) :
    getField (buildFields m true) key ≠ some (vstr x) := by
  rw [getField_buildFields _ _ _ (Or.inr rfl)]
  cases hg : getField m key with
  | none => simp
  | some v =>
    have hm := isPropMap_entries hmap (getField_mem hg)
    obtain ⟨fl, rfl⟩ := hasTypeMarker_vobj hm
    simp [sanitize_vobj]

theorem propsMap_postProcess_id (m : List (String × Value))
    (hmap : isPropertiesMap (vobj m) = true) :
    postProcess (buildFields m true) = buildFields m true :=
  postProcess_no_numeric _ (propsMap_build_not_vstr m hmap _ _)
    (propsMap_build_not_vstr m hmap _ _) (propsMap_build_not_vstr m hmap _ _)
    (propsMap_build_not_vstr m hmap _ _)

/-- C8: a node with a `properties` map containing an entry whose name is
a dropped keyword keeps that entry in the sanitized properties map, and
the entry's own schema is itself fully sanitized (in particular every
unsupported keyword at its top level is gone). -/
theorem C8_collision_property_kept (m : List (String × Value)) (k : String) (w : Value)
    (hmap : isPropertiesMap (vobj m) = true)
    (hk : k ∈ UNSUPPORTED_KEYS)
    (hw : getField m k = some w) :
    sanitize (vobj [("properties", vobj m)]) false
        = vobj [("properties", vobj (buildFields m true))] ∧
    getField (buildFields m true) k = some (sanitize w false) ∧
    ∀ u ∈ UNSUPPORTED_KEYS, objGet (sanitize w false) u = none := by
  have hkp : k ≠ "properties" := by
    rintro rfl
    revert hk
    decide
  refine ⟨?_, ?_, ?_⟩
  · rw [sanitize_vobj]
    have hbf : buildFields [("properties", vobj m)] false
        = [("properties", sanitize (vobj m) true)] := by
      rw [buildFields_cons, if_neg (by decide)]
      simp [childFlag, hmap]
      rfl
    rw [hbf, sanitize_vobj, propsMap_postProcess_id m hmap]
    apply congrArg
    apply postProcess_no_numeric <;> simp [getField]
  · rw [getField_buildFields _ _ _ (Or.inr rfl), hw]
    have hbeq : (k == "properties") = false := beq_eq_false_iff_ne.2 hkp
    simp [childFlag, hbeq]
  · intro u hu
    have hmark := isPropMap_entries hmap (getField_mem hw)
    obtain ⟨wf, rfl⟩ := hasTypeMarker_vobj hmark
    have hne : u ≠ "type" ∧ u ≠ "bsonType" ∧ u ≠ "minimum" ∧ u ≠ "maximum" := by
      simp only [UNSUPPORTED_KEYS, List.mem_cons, List.not_mem_nil, or_false] at hu
      rcases hu with rfl | rfl | rfl | rfl | rfl | rfl <;>
        exact ⟨by decide, by decide, by decide, by decide⟩
    rw [sanitize_vobj]
    show getField (postProcess (buildFields wf false)) u = none
    rw [getField_postProcess_other _ _ hne.1 hne.2.1 hne.2.2.1 hne.2.2.2]
    exact getField_buildFields_unsup wf u hu

theorem C8_witness :
    isPropertiesMap (vobj [("id", vobj [("type", vstr "number"),
        ("format", vstr "x")])]) = true ∧
    sanitize (vobj [("properties", vobj [("id", vobj [("type", vstr "number"),
        ("format", vstr "x")])])]) false
      = vobj [("properties", vobj (buildFields [("id", vobj [("type", vstr "number"),
          ("format", vstr "x")])] true))] ∧
    objGet (sanitize (vobj [("type", vstr "number"), ("format", vstr "x")]) false)
        "format" = none := by
  refine ⟨by decide, ?_, ?_⟩
  · exact (C8_collision_property_kept
      [("id", vobj [("type", vstr "number"), ("format", vstr "x")])] "id"
      (vobj [("type", vstr "number"), ("format", vstr "x")])
      (by decide) (by decide) (by decide)).1
  · exact (C8_collision_property_kept
      [("id", vobj [("type", vstr "number"), ("format", vstr "x")])] "id"
      (vobj [("type", vstr "number"), ("format", vstr "x")])
      (by decide) (by decide) (by decide)).2.2 "format" (by decide)

/-! ## Size lemmas for the nested induction -/

theorem sizeOf_mem_fields {k : String} {v : Value} {l : List (String × Value)}
    (h : (k, v) ∈ l) : sizeOf v < sizeOf l := by
  have h1 := List.sizeOf_lt_of_mem h
  have h2 : sizeOf (k, v) = 1 + sizeOf k + sizeOf v := rfl
  omega

theorem sizeOf_mem_list {v : Value} {l : List Value} (h : v ∈ l) :
    sizeOf v < sizeOf l :=
  List.sizeOf_lt_of_mem h

/-! ## `cleanTop`, `Safe`: list characterizations -/

theorem cleanTopL_all (l : List Value) :
    cleanTopL l = true ↔ ∀ e ∈ l, cleanTop e = true := by
  induction l with
  | nil => simp [cleanTopL]
  | cons e rest ih => simp [cleanTopL, ih]

theorem SafeF_all (l : List (String × Value)) :
    SafeF l = true ↔ ∀ p ∈ l, Safe p.2 = true := by
  induction l with
  | nil => simp [SafeF]
  | cons p rest ih => simp [SafeF, ih]

theorem SafeL_all (l : List Value) :
    SafeL l = true ↔ ∀ e ∈ l, Safe e = true := by
  induction l with
  | nil => simp [SafeL]
  | cons e rest ih => simp [SafeL, ih]

/-! ## Keys produced by the sanitizer are never unsupported -/

theorem jsCoalesce_shape {a b : Option Value} {w : Value}
    (h : jsCoalesce a b = some w) : a = some w ∨ b = some w := by
  match a with
  | none => exact Or.inr h
  | some vnull => exact Or.inr h
  | some (vbool x) => exact Or.inl h
  | some (vnum x) => exact Or.inl h
  | some (vstr x) => exact Or.inl h
  | some (varr x) => exact Or.inl h
  | some (vobj x) => exact Or.inl h

theorem tfn_passthrough (s : List (String × Value))
    (h : tfnType s ≠ some (vstr "integer") ∧ tfnType s ≠ some (vstr "number")) :
    typeForNumber s = (tfnType s, s) := by
  unfold typeForNumber
  dsimp only
  rw [if_pos h]

theorem tfn_fst_of_numeric (s : List (String × Value))
    (h : tfnType s = some (vstr "integer") ∨ tfnType s = some (vstr "number")) :
    (typeForNumber s).1 = some (vstr "int") ∨ (typeForNumber s).1 = some (vstr "long") ∨
    (typeForNumber s).1 = some (vstr "double") ∨
    (typeForNumber s).1 = some (vstr "number") := by
  unfold typeForNumber
  dsimp only
  rw [if_neg (by rcases h with h | h <;> simp [h])]
  rcases h with h | h
  · rw [if_pos h]
    split_ifs <;> try simp
    split <;> (try split_ifs) <;> simp
  · rw [if_neg (by simp [h])]
    split_ifs <;> simp

theorem tfn_fst_shape (s : List (String × Value)) :
    (typeForNumber s).1.getD vnull = vnull ∨
    (∃ t, (typeForNumber s).1.getD vnull = vstr t) ∨
    ∃ k2, (k2 = "type" ∨ k2 = "bsonType") ∧ (k2, (typeForNumber s).1.getD vnull) ∈ s := by
  by_cases h : tfnType s ≠ some (vstr "integer") ∧ tfnType s ≠ some (vstr "number")
  · rw [tfn_passthrough s h]
    cases ht : tfnType s with
    | none => simp
    | some w =>
      right; right
      rcases jsCoalesce_shape ht with hg | hg
      · exact ⟨"type", Or.inl rfl, by simpa using getField_mem hg⟩
      · exact ⟨"bsonType", Or.inr rfl, by simpa using getField_mem hg⟩
  · have h2 : tfnType s = some (vstr "integer") ∨ tfnType s = some (vstr "number") := by
      tauto
    rcases tfn_fst_of_numeric s h2 with hr | hr | hr | hr <;>
      (right; left; exact ⟨_, by rw [hr]; rfl⟩)

theorem mem_postProcess {p : String × Value} {s : List (String × Value)}
    (h : p ∈ postProcess s) :
    p ∈ s ∨
    (p.1 = "bsonType" ∧ (p.2 = vnull ∨ (∃ t, p.2 = vstr t) ∨
      ∃ k2, (k2 = "type" ∨ k2 = "bsonType") ∧ (k2, p.2) ∈ s)) ∨
    (p.1 = "type" ∧ p.2 = vstr "number") := by
  have hbson : ∀ q : String × Value, q = ("bsonType", (typeForNumber s).1.getD vnull) →
      q ∈ s ∨
      (q.1 = "bsonType" ∧ (q.2 = vnull ∨ (∃ t, q.2 = vstr t) ∨
        ∃ k2, (k2 = "type" ∨ k2 = "bsonType") ∧ (k2, q.2) ∈ s)) ∨
      (q.1 = "type" ∧ q.2 = vstr "number") := by
    rintro q rfl
    refine Or.inr (Or.inl ⟨rfl, ?_⟩)
    exact tfn_fst_shape s
  unfold postProcess at h
  dsimp only at h
  obtain ⟨k, w⟩ := p
  split_ifs at h with hc1 hc2 hc3
  · rcases mem_setField (mem_eraseField h) with hm | hm
    · rcases mem_setField (mem_eraseField hm) with hm2 | hm2
      · exact Or.inl (mem_tfn_snd hm2)
      · exact hbson _ hm2
    · rw [Prod.mk.injEq] at hm
      exact Or.inr (Or.inr ⟨hm.1, hm.2⟩)
  · rcases mem_setField (mem_eraseField h) with hm | hm
    · exact Or.inl (mem_tfn_snd hm)
    · exact hbson _ hm
  · rcases mem_setField (mem_eraseField h) with hm | hm
    · exact Or.inl hm
    · rw [Prod.mk.injEq] at hm
      exact Or.inr (Or.inr ⟨hm.1, hm.2⟩)
  · exact Or.inl h

/-! ## The output of a flag-false pass has no unsupported keys -/

theorem cleanTop_sanitize (v : Value) : cleanTop (sanitize v false) = true := by
  suffices H : ∀ (n : ℕ) (v : Value), sizeOf v ≤ n → cleanTop (sanitize v false) = true from
    H (sizeOf v) v le_rfl
  intro n
  induction n with
  | zero =>
    intro v hv
    exfalso
    cases v <;> simp at hv
  | succ n ih =>
    intro v hv
    match v with
    | vnull => rfl
    | vbool _ => rfl
    | vnum _ => rfl
    | vstr _ => rfl
    | varr es =>
      rw [sanitize_varr, sanitizeList_eq_map]
      show cleanTopL _ = true
      rw [cleanTopL_all]
      intro e he
      obtain ⟨e0, he0, rfl⟩ := List.mem_map.1 he
      have hs : sizeOf e0 ≤ n := by
        have h1 := sizeOf_mem_list he0
        have h2 : sizeOf (varr es) = 1 + sizeOf es := by simp
        omega
      exact ih e0 hs
    | vobj l =>
      rw [sanitize_vobj]
      show List.all _ _ = true
      rw [List.all_eq_true]
      rintro ⟨k, w⟩ hp
      rcases mem_postProcess hp with hm | ⟨hk, _⟩ | ⟨hk, _⟩
      · obtain ⟨v0, hv0, _, hcl⟩ := mem_buildFields hm
        simpa [List.elem_iff] using hcl rfl
      · rw [hk]
        decide
      · rw [hk]
        decide

/-! ## The flag only matters on unsupported top-level keys -/

theorem buildFields_flag_eq (l : List (String × Value))
    (h : ∀ p ∈ l, p.1 ∉ UNSUPPORTED_KEYS) (b b2 : Bool) :
    buildFields l b = buildFields l b2 := by
  induction l with
  | nil => rfl
  | cons p rest ih =>
    obtain ⟨k, v⟩ := p
    have hk := h (k, v) (List.mem_cons_self _ _)
    rw [buildFields_cons, buildFields_cons,
      if_neg (fun hc => hk ((buildDrop_iff _ _).1 hc).2),
      if_neg (fun hc => hk ((buildDrop_iff _ _).1 hc).2),
      ih (fun q hq => h q (List.mem_cons_of_mem _ hq))]

theorem sanitize_flag_of_cleanTop (v : Value) (h : cleanTop v = true) (b b2 : Bool) :
    sanitize v b = sanitize v b2 := by
  suffices H : ∀ (n : ℕ) (v : Value), sizeOf v ≤ n → cleanTop v = true →
      ∀ b b2, sanitize v b = sanitize v b2 from H (sizeOf v) v le_rfl h b b2
  intro n
  induction n with
  | zero =>
    intro v hv
    exfalso
    cases v <;> simp at hv
  | succ n ih =>
    intro v hv hc b b2
    match v with
    | vnull => rfl
    | vbool _ => rfl
    | vnum _ => rfl
    | vstr _ => rfl
    | varr es =>
      rw [sanitize_varr, sanitize_varr, sanitizeList_eq_map, sanitizeList_eq_map]
      apply congrArg
      apply List.map_congr_left
      intro e he
      have hce : cleanTop e = true := (cleanTopL_all es).1 hc e he
      have hs : sizeOf e ≤ n := by
        have h1 := sizeOf_mem_list he
        have h2 : sizeOf (varr es) = 1 + sizeOf es := by simp
        omega
      exact ih e hs hce b b2
    | vobj l =>
      rw [sanitize_vobj, sanitize_vobj]
      apply congrArg
      apply congrArg
      apply buildFields_flag_eq
      intro p hp
      have := List.all_eq_true.1 hc p hp
      simpa [List.elem_iff] using this

/-! ## Kind markers and properties-map shape survive sanitization -/

theorem postProcess_marker (s : List (String × Value))
    (h : (getField s "type").isSome ∨ (getField s "bsonType").isSome) :
    (getField (postProcess s) "type").isSome ∨
      (getField (postProcess s) "bsonType").isSome := by
  unfold postProcess
  dsimp only
  split_ifs with hc1 hc2 hc3
  · left
    simp [getField_eraseField, getField_setField]
  · right
    simp [getField_eraseField, getField_setField]
  · left
    simp [getField_eraseField, getField_setField]
  · exact h

theorem hasTypeMarker_sanitize (v : Value) (h : hasTypeMarker v = true) (b : Bool) :
    hasTypeMarker (sanitize v b) = true := by
  obtain ⟨fl, rfl⟩ := hasTypeMarker_vobj h
  rw [sanitize_vobj]
  have hb : (getField (buildFields fl b) "type").isSome ∨
      (getField (buildFields fl b) "bsonType").isSome := by
    rw [getField_buildFields _ _ _ (Or.inl (by decide)),
      getField_buildFields _ _ _ (Or.inl (by decide))]
    rcases (by simpa [hasTypeMarker] using h :
        (getField fl "type").isSome = true ∨ (getField fl "bsonType").isSome = true) with
      hh | hh <;> [left; right] <;> simpa using hh
  have hres := postProcess_marker _ hb
  show ((getField (postProcess (buildFields fl b)) "type").isSome ||
    (getField (postProcess (buildFields fl b)) "bsonType").isSome) = true
  rcases hres with hh | hh <;> simp [hh]

theorem isPropMap_sanitize (v : Value) (h : isPropertiesMap v = true) :
    isPropertiesMap (sanitize v true) = true := by
  match v with
  | vnull => simp [isPropertiesMap] at h
  | vbool _ => simp [isPropertiesMap] at h
  | vnum _ => simp [isPropertiesMap] at h
  | vstr _ => simp [isPropertiesMap] at h
  | vobj m =>
    rw [sanitize_vobj, propsMap_postProcess_id m h]
    show List.all _ _ = true
    rw [List.all_eq_true]
    rintro ⟨k, w⟩ hp
    obtain ⟨v0, hv0, heq, _⟩ := mem_buildFields hp
    have heq2 : w = sanitize v0 (childFlag k v0) := heq
    show hasTypeMarker w = true
    rw [heq2]
    exact hasTypeMarker_sanitize v0 (isPropMap_entries h hv0) _
  | varr es =>
    rw [sanitize_varr, sanitizeList_eq_map]
    show List.all _ _ = true
    rw [List.all_eq_true]
    intro e he
    obtain ⟨e0, he0, rfl⟩ := List.mem_map.1 he
    have he2 : hasTypeMarker e0 = true := by
      have hall : ∀ x ∈ es, hasTypeMarker x = true := by
        simpa [isPropertiesMap, List.all_eq_true] using h
      exact hall e0 he0
    exact hasTypeMarker_sanitize e0 he2 _

/-! ## Transfer of designators and bounds through the building loop -/

theorem getField_append (a b : List (String × Value)) (k : String) :
    getField (a ++ b) k =
      match getField a k with
      | some v => some v
      | none => getField b k := by
  induction a with
  | nil => simp [getField]
  | cons p rest ih =>
    obtain ⟨k1, v1⟩ := p
    by_cases h : k1 = k <;> simp [getField, h, ih]

theorem tfnType_build_eq_vstr (l : List (String × Value)) (b : Bool) (x : String) :
    tfnType (buildFields l b) = some (vstr x) ↔ tfnType l = some (vstr x) := by
  unfold tfnType
  rw [getField_buildFields _ _ _ (Or.inl (by decide)),
    getField_buildFields _ _ _ (Or.inl (by decide))]
  cases ht : getField l "type" with
  | none =>
    cases hb : getField l "bsonType" with
    | none => simp [jsCoalesce]
    | some w => cases w <;> simp [jsCoalesce, sanitize]
  | some v =>
    cases v with
    | vnull =>
      cases hb : getField l "bsonType" with
      | none => simp [jsCoalesce, sanitize]
      | some w => cases w <;> simp [jsCoalesce, sanitize]
    | vbool a => simp [jsCoalesce, sanitize]
    | vnum a => simp [jsCoalesce, sanitize]
    | vstr a => simp [jsCoalesce, sanitize]
    | varr a => simp [jsCoalesce, sanitize]
    | vobj a => simp [jsCoalesce, sanitize]

theorem nullToNone_build_eq_vnum (l : List (String × Value)) (b : Bool) (k : String)
    (hk : k ∉ UNSUPPORTED_KEYS) (q : ℚ) :
    nullToNone (getField (buildFields l b) k) = some (vnum q) ↔
      nullToNone (getField l k) = some (vnum q) := by
  rw [getField_buildFields _ _ _ (Or.inl hk)]
  cases hg : getField l k with
  | none => simp [nullToNone]
  | some v => cases v <;> simp [sanitize, nullToNone]

theorem intClash_build (l : List (String × Value)) (b : Bool) :
    intClash (buildFields l b) = intClash l := by
  rw [Bool.eq_iff_iff]
  simp only [intClash, Bool.and_eq_true, Bool.or_eq_true, decide_eq_true_eq]
  rw [tfnType_build_eq_vstr]
  simp only [nullToNone_build_eq_vnum l b "minimum" (by decide),
    nullToNone_build_eq_vnum l b "maximum" (by decide)]

/-! ## Complete case analysis of `_typeForNumber` -/

theorem tfn_cases_full (s : List (String × Value)) :
    (tfnType s ≠ some (vstr "integer") ∧ tfnType s ≠ some (vstr "number") ∧
      typeForNumber s = (tfnType s, s)) ∨
    (tfnType s = some (vstr "integer") ∧
      ∃ j, typeForNumber s = (some (vstr "int"), j)) ∨
    (tfnType s = some (vstr "integer") ∧
      ∃ j, typeForNumber s = (some (vstr "long"), j)) ∨
    (tfnType s = some (vstr "number") ∧
      ((nullToNone (getField s "minimum") = some (vnum FLOAT32_MIN) ∧
          nullToNone (getField s "maximum") = some (vnum FLOAT32_MAX)) ∨
        (nullToNone (getField s "minimum") = some (vnum FLOAT64_MIN) ∧
          nullToNone (getField s "maximum") = some (vnum FLOAT64_MAX))) ∧
      ∃ j, typeForNumber s = (some (vstr "double"), j)) ∨
    (typeForNumber s = (some (vstr "number"), s) ∧
      (tfnType s = some (vstr "integer") ∨
        (tfnType s = some (vstr "number") ∧
          ¬(nullToNone (getField s "minimum") = some (vnum FLOAT32_MIN) ∧
            nullToNone (getField s "maximum") = some (vnum FLOAT32_MAX)) ∧
          ¬(nullToNone (getField s "minimum") = some (vnum FLOAT64_MIN) ∧
            nullToNone (getField s "maximum") = some (vnum FLOAT64_MAX))))) := by
  by_cases h0 : tfnType s ≠ some (vstr "integer") ∧ tfnType s ≠ some (vstr "number")
  · exact Or.inl ⟨h0.1, h0.2, tfn_passthrough s h0⟩
  · have h2 : tfnType s = some (vstr "integer") ∨ tfnType s = some (vstr "number") := by
      tauto
    unfold typeForNumber
    dsimp only
    rw [if_neg h0]
    rcases h2 with hτ | hτ
    · rw [if_pos hτ]
      by_cases p32 : nullToNone (getField s "minimum") = some (vnum INT32_MIN) ∧
          nullToNone (getField s "maximum") = some (vnum INT32_MAX)
      · rw [if_pos p32]
        exact Or.inr (Or.inl ⟨hτ, _, rfl⟩)
      · rw [if_neg p32]
        by_cases p53 : nullToNone (getField s "minimum") = some (vnum INT53_MIN) ∧
            nullToNone (getField s "maximum") = some (vnum INT53_MAX)
        · rw [if_pos p53]
          exact Or.inr (Or.inr (Or.inl ⟨hτ, _, rfl⟩))
        · rw [if_neg p53]
          cases hmn : nullToNone (getField s "minimum") with
          | none =>
            exact Or.inr (Or.inr (Or.inr (Or.inr ⟨rfl, Or.inl hτ⟩)))
          | some mn =>
            cases hmx : nullToNone (getField s "maximum") with
            | none =>
              exact Or.inr (Or.inr (Or.inr (Or.inr ⟨rfl, Or.inl hτ⟩)))
            | some mx =>
              dsimp only
              by_cases q1 : (numGE mn INT32_MIN && numLE mx INT32_MAX) = true
              · rw [if_pos q1]
                exact Or.inr (Or.inl ⟨hτ, _, rfl⟩)
              · rw [if_neg q1]
                by_cases q2 : (isIntegral mn && isIntegral mx && numGE mn INT64_MIN &&
                    numLE mx INT64_MAX) = true
                · rw [if_pos q2]
                  exact Or.inr (Or.inr (Or.inl ⟨hτ, _, rfl⟩))
                · rw [if_neg q2]
                  exact Or.inr (Or.inr (Or.inr (Or.inr ⟨rfl, Or.inl hτ⟩)))
    · rw [if_neg (by simp [hτ])]
      by_cases f32 : nullToNone (getField s "minimum") = some (vnum FLOAT32_MIN) ∧
          nullToNone (getField s "maximum") = some (vnum FLOAT32_MAX)
      · rw [if_pos f32]
        exact Or.inr (Or.inr (Or.inr (Or.inl ⟨hτ, Or.inl f32, _, rfl⟩)))
      · rw [if_neg f32]
        by_cases f64 : nullToNone (getField s "minimum") = some (vnum FLOAT64_MIN) ∧
            nullToNone (getField s "maximum") = some (vnum FLOAT64_MAX)
        · rw [if_pos f64]
          exact Or.inr (Or.inr (Or.inr (Or.inl ⟨hτ, Or.inr f64, _, rfl⟩)))
        · rw [if_neg f64]
          exact Or.inr (Or.inr (Or.inr (Or.inr ⟨rfl, Or.inr ⟨hτ, f32, f64⟩⟩)))

/-! ## Stability of the numeric post-processing -/

theorem postProcess_neg (s : List (String × Value))
    (hc1 : ¬(getField s "type" = some (vstr "integer") ∨
      getField s "type" = some (vstr "number") ∨
      getField s "bsonType" = some (vstr "integer") ∨
      getField s "bsonType" = some (vstr "number"))) :
    postProcess s = s := by
  unfold postProcess
  dsimp only
  rw [if_neg hc1, if_neg (by tauto)]

theorem postProcess_pos (s : List (String × Value))
    (hc1 : getField s "type" = some (vstr "integer") ∨
      getField s "type" = some (vstr "number") ∨
      getField s "bsonType" = some (vstr "integer") ∨
      getField s "bsonType" = some (vstr "number")) :
    postProcess s =
      if getField (eraseField (setField (typeForNumber s).2 "bsonType"
            ((typeForNumber s).1.getD vnull)) "type") "type" = some (vstr "number") ∨
          getField (eraseField (setField (typeForNumber s).2 "bsonType"
            ((typeForNumber s).1.getD vnull)) "type") "bsonType" = some (vstr "number") then
        eraseField (setField (eraseField (setField (typeForNumber s).2 "bsonType"
          ((typeForNumber s).1.getD vnull)) "type") "type" (vstr "number")) "bsonType"
      else
        eraseField (setField (typeForNumber s).2 "bsonType"
          ((typeForNumber s).1.getD vnull)) "type" := by
  unfold postProcess
  dsimp only
  rw [if_pos hc1]

/-- A node whose `bsonType` holds a designator other than `integer` or
`number` and whose `type` has been deleted is fixed by the
post-processing. -/
theorem postProcess_stable_designator (s2 : List (String × Value)) (w : Value)
    (hw1 : w ≠ vstr "integer") (hw2 : w ≠ vstr "number") :
    postProcess (eraseField (setField s2 "bsonType" w) "type")
      = eraseField (setField s2 "bsonType" w) "type" := by
  apply postProcess_neg
  push_neg
  refine ⟨?_, ?_, ?_, ?_⟩ <;>
    simp [getField_eraseField, getField_setField, hw1, hw2]


/-- A generic-number node (`type` appended last, no `bsonType`) whose
bounds match no canonical float pair is fixed by the post-processing. -/
theorem postProcess_stable_number (c : List (String × Value))
    (hct : getField c "type" = none) (hcb : getField c "bsonType" = none)
    (hp32 : ¬(nullToNone (getField c "minimum") = some (vnum FLOAT32_MIN) ∧
        nullToNone (getField c "maximum") = some (vnum FLOAT32_MAX)))
    (hp64 : ¬(nullToNone (getField c "minimum") = some (vnum FLOAT64_MIN) ∧
        nullToNone (getField c "maximum") = some (vnum FLOAT64_MAX))) :
    postProcess (c ++ [("type", vstr "number")]) = c ++ [("type", vstr "number")] := by
  have hot : getField (c ++ [("type", vstr "number")]) "type" = some (vstr "number") := by
    rw [getField_append, hct]
    rfl
  have hob : getField (c ++ [("type", vstr "number")]) "bsonType" = none := by
    rw [getField_append, hcb]
    rfl
  have homin : getField (c ++ [("type", vstr "number")]) "minimum"
      = getField c "minimum" := by
    rw [getField_append]
    cases getField c "minimum" <;> rfl
  have homax : getField (c ++ [("type", vstr "number")]) "maximum"
      = getField c "maximum" := by
    rw [getField_append]
    cases getField c "maximum" <;> rfl
  have hτ : tfnType (c ++ [("type", vstr "number")]) = some (vstr "number") := by
    unfold tfnType
    rw [hot]
    rfl
  have hret : typeForNumber (c ++ [("type", vstr "number")])
      = (some (vstr "number"), c ++ [("type", vstr "number")]) := by
    rcases tfn_cases_full (c ++ [("type", vstr "number")]) with
      ⟨_, h2, _⟩ | ⟨hτ2, _⟩ | ⟨hτ2, _⟩ | ⟨_, hpair, _⟩ | ⟨hj, _⟩
    · exact absurd hτ h2
    · rw [hτ] at hτ2
      simp at hτ2
    · rw [hτ] at hτ2
      simp at hτ2
    · rw [homin, homax] at hpair
      tauto
    · exact hj
  rw [postProcess_pos _ (Or.inr (Or.inl hot)), hret]
  dsimp only
  simp only [Option.getD_some]
  rw [if_pos (Or.inr (by simp [getField_eraseField, getField_setField]))]
  rw [setField_of_getField_none hob, List.append_assoc, eraseField_append,
    eraseField_of_getField_none hct]
  have e1 : eraseField ([("type", vstr "number")] ++ [("bsonType", vstr "number")]) "type"
      = [("bsonType", vstr "number")] := rfl
  rw [e1]
  have h2 : getField (c ++ [("bsonType", vstr "number")]) "type" = none := by
    rw [getField_append, hct]
    rfl
  rw [setField_of_getField_none h2, List.append_assoc, eraseField_append,
    eraseField_of_getField_none hcb]
  rfl

theorem intClash_false_pairs (s : List (String × Value)) (h : intClash s = false)
    (hτ : tfnType s = some (vstr "integer")) :
    ¬(nullToNone (getField s "minimum") = some (vnum FLOAT32_MIN) ∧
      nullToNone (getField s "maximum") = some (vnum FLOAT32_MAX)) ∧
    ¬(nullToNone (getField s "minimum") = some (vnum FLOAT64_MIN) ∧
      nullToNone (getField s "maximum") = some (vnum FLOAT64_MAX)) := by
  simp only [intClash, hτ, decide_eq_true_eq, Bool.and_eq_false_iff,
    Bool.or_eq_false_iff, decide_eq_false_iff_not] at h
  rcases h with h | ⟨⟨h1, h2⟩⟩
  · simp at h
  · constructor <;> tauto

/-- Applying the numeric post-processing twice is the same as applying
it once, provided the node is not an integer-kind node with canonical
float-pair bounds. -/
theorem postProcess_idem (s : List (String × Value)) (h : intClash s = false) :
    postProcess (postProcess s) = postProcess s := by
  by_cases hc1 : getField s "type" = some (vstr "integer") ∨
      getField s "type" = some (vstr "number") ∨
      getField s "bsonType" = some (vstr "integer") ∨
      getField s "bsonType" = some (vstr "number")
  case neg =>
    rw [postProcess_neg s hc1]
    exact postProcess_neg s hc1
  case pos =>
    rcases tfn_cases_full s with ⟨h1, h2, hr⟩ | ⟨hτ, j, hr⟩ | ⟨hτ, j, hr⟩ |
      ⟨hτ, hpair, j, hr⟩ | ⟨hr, hτcase⟩
    · have hw1 : (tfnType s).getD vnull ≠ vstr "integer" := by
        cases ht : tfnType s with
        | none => simp
        | some v =>
          rw [ht] at h1
          simpa using fun he => h1 (by rw [he])
      have hw2 : (tfnType s).getD vnull ≠ vstr "number" := by
        cases ht : tfnType s with
        | none => simp
        | some v =>
          rw [ht] at h2
          simpa using fun he => h2 (by rw [he])
      rw [postProcess_pos s hc1, hr]
      dsimp only
      rw [if_neg (by simp [getField_eraseField, getField_setField, hw2])]
      exact postProcess_stable_designator s _ hw1 hw2
    · rw [postProcess_pos s hc1, hr]
      dsimp only
      simp only [Option.getD_some]
      rw [if_neg (by simp [getField_eraseField, getField_setField])]
      exact postProcess_stable_designator j _ (by decide) (by decide)
    · rw [postProcess_pos s hc1, hr]
      dsimp only
      simp only [Option.getD_some]
      rw [if_neg (by simp [getField_eraseField, getField_setField])]
      exact postProcess_stable_designator j _ (by decide) (by decide)
    · rw [postProcess_pos s hc1, hr]
      dsimp only
      simp only [Option.getD_some]
      rw [if_neg (by simp [getField_eraseField, getField_setField])]
      exact postProcess_stable_designator j _ (by decide) (by decide)
    · have hpf := (by
        rcases hτcase with hτ | ⟨hτ, hf32, hf64⟩
        · exact intClash_false_pairs s h hτ
        · exact ⟨hf32, hf64⟩ :
          ¬(nullToNone (getField s "minimum") = some (vnum FLOAT32_MIN) ∧
            nullToNone (getField s "maximum") = some (vnum FLOAT32_MAX)) ∧
          ¬(nullToNone (getField s "minimum") = some (vnum FLOAT64_MIN) ∧
            nullToNone (getField s "maximum") = some (vnum FLOAT64_MAX)))
      rw [postProcess_pos s hc1, hr]
      dsimp only
      simp only [Option.getD_some]
      rw [if_pos (Or.inr (by simp [getField_eraseField, getField_setField]))]
      have hs1t : getField (eraseField (setField s "bsonType" (vstr "number")) "type")
          "type" = none := by
        simp [getField_eraseField]
      have hX : eraseField (setField (eraseField (setField s "bsonType" (vstr "number"))
            "type") "type" (vstr "number")) "bsonType"
          = eraseField (eraseField (setField s "bsonType" (vstr "number")) "type")
              "bsonType" ++ [("type", vstr "number")] := by
        rw [setField_of_getField_none hs1t, eraseField_append]
        rfl
      rw [hX]
      apply postProcess_stable_number
      · simp [getField_eraseField]
      · simp [getField_eraseField]
      · have hm : getField (eraseField (eraseField (setField s "bsonType"
            (vstr "number")) "type") "bsonType") "minimum" = getField s "minimum" := by
          simp [getField_eraseField, getField_setField]
        have hx : getField (eraseField (eraseField (setField s "bsonType"
            (vstr "number")) "type") "bsonType") "maximum" = getField s "maximum" := by
          simp [getField_eraseField, getField_setField]
        rw [hm, hx]
        exact hpf.1
      · have hm : getField (eraseField (eraseField (setField s "bsonType"
            (vstr "number")) "type") "bsonType") "minimum" = getField s "minimum" := by
          simp [getField_eraseField, getField_setField]
        have hx : getField (eraseField (eraseField (setField s "bsonType"
            (vstr "number")) "type") "bsonType") "maximum" = getField s "maximum" := by
          simp [getField_eraseField, getField_setField]
        rw [hm, hx]
        exact hpf.2

/-! ## The sanitizer is idempotent on clash-free trees -/

theorem buildFields_id (m : List (String × Value)) (b : Bool)
    (h : ∀ p ∈ m, sanitize p.2 (childFlag p.1 p.2) = p.2 ∧
      (b = false → p.1 ∉ UNSUPPORTED_KEYS)) :
    buildFields m b = m := by
  induction m with
  | nil => rfl
  | cons p rest ih =>
    obtain ⟨k, v⟩ := p
    have hp := h (k, v) (List.mem_cons_self _ _)
    have hp1 : sanitize v (childFlag k v) = v := hp.1
    rw [buildFields_cons, if_neg (fun hc => by
      have hcc := (buildDrop_iff b k).1 hc
      exact (hp.2 hcc.1) hcc.2)]
    rw [hp1, ih (fun q hq => h q (List.mem_cons_of_mem _ hq))]

theorem sanitize_sanitize_of_safe :
    ∀ (n : ℕ) (v : Value), sizeOf v ≤ n → Safe v = true →
      ∀ b, sanitize (sanitize v b) b = sanitize v b := by
  intro n
  induction n with
  | zero =>
    intro v hv
    exfalso
    cases v <;> simp at hv
  | succ n ih =>
    intro v hv hs b
    match v with
    | vnull => rfl
    | vbool _ => rfl
    | vnum _ => rfl
    | vstr _ => rfl
    | varr es =>
      simp only [sanitize_varr, sanitizeList_eq_map, List.map_map]
      apply congrArg
      apply List.map_congr_left
      intro e he
      have hsafeE : Safe e = true := (SafeL_all es).1 hs e he
      have hsz : sizeOf e ≤ n := by
        have h1 := sizeOf_mem_list he
        have h2 : sizeOf (varr es) = 1 + sizeOf es := by simp
        omega
      simpa [Function.comp] using ih e hsz hsafeE b
    | vobj l =>
      have hs2 : intClash l = false ∧ ∀ p ∈ l, Safe p.2 = true := by
        have hb : (!intClash l && SafeF l) = true := hs
        rw [Bool.and_eq_true, Bool.not_eq_true', SafeF_all] at hb
        exact hb
      have hszf : ∀ v0 : Value, ∀ k0 : String, (k0, v0) ∈ l → sizeOf v0 ≤ n := by
        intro v0 k0 hv0
        have h1 := sizeOf_mem_fields hv0
        have h2 : sizeOf (vobj l) = 1 + sizeOf l := by simp
        omega
      rw [sanitize_vobj, sanitize_vobj]
      have hbid : buildFields (postProcess (buildFields l b)) b
          = postProcess (buildFields l b) := by
        apply buildFields_id
        rintro ⟨k, w⟩ hp
        rcases mem_postProcess hp with hm | ⟨hk, hwv⟩ | ⟨hk, hwv⟩
        · obtain ⟨v0, hv0, heq, hclean⟩ := mem_buildFields hm
          have heq2 : w = sanitize v0 (childFlag k v0) := heq
          have hsafe0 : Safe v0 = true := hs2.2 (k, v0) hv0
          have hsz : sizeOf v0 ≤ n := hszf v0 k hv0
          refine ⟨?_, hclean⟩
          show sanitize w (childFlag k w) = w
          by_cases hf : childFlag k v0 = true
          · have hf2 : (k == "properties") = true ∧ isPropertiesMap v0 = true := by
              simpa [childFlag] using hf
            rw [heq2, hf]
            have hcf : childFlag k (sanitize v0 true) = true := by
              simp [childFlag, hf2.1, isPropMap_sanitize v0 hf2.2]
            rw [hcf]
            exact ih v0 hsz hsafe0 true
          · have hf2 : childFlag k v0 = false := by
              revert hf
              cases childFlag k v0 <;> simp
            rw [heq2, hf2]
            by_cases hg : childFlag k (sanitize v0 false) = true
            · rw [hg,
                sanitize_flag_of_cleanTop (sanitize v0 false) (cleanTop_sanitize v0)
                  true false]
              exact ih v0 hsz hsafe0 false
            · have hg2 : childFlag k (sanitize v0 false) = false := by
                revert hg
                cases childFlag k (sanitize v0 false) <;> simp
              rw [hg2]
              exact ih v0 hsz hsafe0 false
        · have hk2 : k = "bsonType" := hk
          subst hk2
          refine ⟨?_, fun _ => show "bsonType" ∉ UNSUPPORTED_KEYS by decide⟩
          show sanitize w (childFlag "bsonType" w) = w
          have hcf : childFlag "bsonType" w = false := by
            simp [childFlag]
          rw [hcf]
          rcases hwv with hnull | ⟨t, hstr⟩ | ⟨k2, hk2m, hmem⟩
          · have hw2 : w = vnull := hnull
            subst hw2
            rfl
          · have hw2 : w = vstr t := hstr
            subst hw2
            rfl
          · obtain ⟨v0, hv0, heq, _⟩ := mem_buildFields hmem
            have heq2 : w = sanitize v0 (childFlag k2 v0) := heq
            have hcf2 : childFlag k2 v0 = false := by
              rcases hk2m with rfl | rfl <;> simp [childFlag]
            rw [hcf2] at heq2
            have hsafe0 : Safe v0 = true := hs2.2 (k2, v0) hv0
            have hsz : sizeOf v0 ≤ n := hszf v0 k2 hv0
            rw [heq2]
            exact ih v0 hsz hsafe0 false
        · have hk2 : k = "type" := hk
          have hw2 : w = vstr "number" := hwv
          subst hk2
          subst hw2
          exact ⟨rfl, fun _ => show "type" ∉ UNSUPPORTED_KEYS by decide⟩
      rw [hbid]
      apply congrArg
      apply postProcess_idem
      rw [intClash_build]
      exact hs2.1

/-- C9 (amended): sanitization is idempotent on every tree that is
`Safe`, i.e. contains no integer-kind node whose bounds are exactly the
float32 or float64 canonical pair.  (On a clashing node the first pass
leaves a generic number node still carrying the canonical pair, which a
second pass re-resolves to `double`; see `C9_counterexample`.) -/
theorem C9_idempotent_on_safe (t : Value) (h : Safe t = true) :
    sanitize (sanitize t false) false = sanitize t false :=
  sanitize_sanitize_of_safe (sizeOf t) t le_rfl h false

theorem C9_witness :
    Safe (vobj [("type", vstr "integer"), ("minimum", vnum 0), ("maximum", vnum 10)])
        = true ∧
    sanitize (sanitize (vobj [("type", vstr "integer"), ("minimum", vnum 0),
        ("maximum", vnum 10)]) false) false
      = sanitize (vobj [("type", vstr "integer"), ("minimum", vnum 0),
          ("maximum", vnum 10)]) false :=
  ⟨by decide,
    C9_idempotent_on_safe
      (vobj [("type", vstr "integer"), ("minimum", vnum 0), ("maximum", vnum 10)])
      (by decide)⟩
